import Mathlib

/-
Shallow embedding of the SRP schedulability-analysis engine
(`src/srp_analysis/mod.rs` of jacsjs/visualization) and proofs about it.

Modelling conventions:
* Rust `u32`/`u8` values are modelled as `Nat`.  The one place where unsigned
  wrap-around is semantically relevant — the unguarded subtraction
  `end - start` in `wcet` — is modelled explicitly modulo `2^32` (release-mode
  Rust semantics; a debug build would panic instead, and in neither build is a
  recoverable error produced).  The additive formulas (sums, maxima,
  products of small quantities) are modelled over unbounded `Nat`.
* Rust `f32` arithmetic (`total_load_factor`, the division inside
  `interference`) is modelled as exact rational arithmetic over `ℚ`.
  Division by a zero `inter_arrival` is therefore total (Lean's `x / 0 = 0`)
  whereas the Rust code would produce `inf`; no theorem below relies on the
  value of a division with zero divisor.
* Rust iterators become Lean `List` operations preserving order and
  short-circuiting (`try_fold` becomes `foldlM` over `Except`, `?` becomes
  monadic bind).
* `Trace.end` is renamed `Trace.stop` because `end` is a Lean keyword.
-/

namespace SrpAnalysis

/-- `2^32`, the modulus of Rust `u32` arithmetic. -/
def U32 : Nat := 4294967296

/-- `struct Trace { id, start, end, inner }`: a half-open interval with nested
child traces.  (`end` is a Lean keyword, so the field is called `stop`.) -/
inductive Trace where
  | mk (id : String) (start : Nat) (stop : Nat) (inner : List Trace)

def Trace.id : Trace → String
  | .mk i _ _ _ => i

def Trace.start : Trace → Nat
  | .mk _ s _ _ => s

def Trace.stop : Trace → Nat
  | .mk _ _ e _ => e

def Trace.inner : Trace → List Trace
  | .mk _ _ _ i => i

/-- A direct child trace is structurally smaller than its parent. -/
theorem sizeOf_lt_of_mem_inner {c t : Trace} (h : c ∈ t.inner) : sizeOf c < sizeOf t := by
  cases t with
  | mk i s e inn =>
    simp only [Trace.inner] at h
    have h1 := List.sizeOf_lt_of_mem h
    simp
    omega

/-- `struct Task { id, prio, deadline, inter_arrival, trace }`. -/
structure Task where
  id : String
  prio : Nat
  deadline : Nat
  inter_arrival : Nat
  trace : Trace

/-- `enum PreemptionMode { Exact, Approximate }`. -/
inductive PreemptionMode where
  | Exact
  | Approximate

/-- `Trace::wcet`: `self.end - self.start` on `u32`, unguarded; wrap-around
subtraction modelled as `(stop + 2^32 - start) % 2^32` (faithful for
`start, stop < 2^32`). -/
def Trace.wcet (t : Trace) : Nat :=
  (t.stop + U32 - t.start) % U32

/-- `Task::wcet`: `self.trace.end - self.trace.start` on `u32`, same
unguarded subtraction. -/
def Task.wcet (t : Task) : Nat :=
  (t.trace.stop + U32 - t.trace.start) % U32

/-- `Trace::resources`:
`self.inner.iter().chain(self.inner.iter().flat_map(|n| n.resources()))` —
all direct children first, then the recursive traversal of each child,
in declaration order. -/
def Trace.resources (t : Trace) : List Trace :=
  t.inner ++ t.inner.attach.flatMap (fun n => n.1.resources)
termination_by sizeOf t
decreasing_by
  exact sizeOf_lt_of_mem_inner n.2

/-- `Task::resources`: delegates to `self.trace.resources()`. -/
def Task.resources (t : Task) : List Trace :=
  t.trace.resources

/-- `Trace::ceiling_priority`: maximum `prio` of the tasks whose resource
traversal contains a trace with this resource's `id`; `unwrap_or(1)`. -/
def Trace.ceiling_priority (r : Trace) (tasks : List Task) : Nat :=
  (((tasks.filter (fun task => task.resources.any (fun res => res.id == r.id))).map
      Task.prio).max?).getD 1

/-- `Task::blocking_time`: over lower-priority tasks, over their resources
whose ceiling priority is at least this task's priority, the maximum resource
`wcet`; `unwrap_or(0)`. -/
def Task.blocking_time (t : Task) (tasks : List Task) : Nat :=
  (((tasks.filter (fun l => l.prio < t.prio)).flatMap (fun lower_priority_task =>
      lower_priority_task.resources.filterMap (fun resource =>
        let critical_section := resource.wcet
        let ceiling_priority := resource.ceiling_priority tasks
        if ceiling_priority ≥ t.prio then some critical_section else none))).max?).getD 0

/-- `Task::busy_period`: sum of `wcet` over tasks of the set with priority
at least this task's. -/
def Task.busy_period (t : Task) (tasks : List Task) : Nat :=
  ((tasks.filter (fun x => x.prio ≥ t.prio)).map Task.wcet).sum

/-- `Task::interference`: sum over strictly-higher-priority tasks `h` of
`wcet(h) * ceil(busy_period / inter_arrival(h))`; the `f32` division and
`ceil` are modelled as exact division in `ℚ` followed by `Nat.ceil`. -/
def Task.interference (t : Task) (tasks : List Task) : Nat :=
  ((tasks.filter (fun h => h.prio > t.prio)).map (fun h =>
    h.wcet * Nat.ceil ((t.busy_period tasks : ℚ) / (h.inter_arrival : ℚ)))).sum

/-- Auxiliary strict-decrease lemma: a `filter` by a pointwise-stronger
predicate is no longer. -/
theorem length_filter_le_of_imp {α : Type} (p q : α → Bool) (l : List α)
    (himp : ∀ x, q x = true → p x = true) :
    (l.filter q).length ≤ (l.filter p).length := by
  induction l with
  | nil => simp
  | cons a l ih =>
    by_cases hq : q a = true
    · have hp := himp a hq
      simp [List.filter_cons, hq, hp, Nat.succ_le_succ ih]
    · by_cases hp : p a = true
      · simp only [List.filter_cons, hp, if_pos]
        simp only [Bool.not_eq_true] at hq
        simp [hq]
        omega
      · simp only [Bool.not_eq_true] at hq hp
        simp [List.filter_cons, hq, hp, ih]

/-- Auxiliary strict-decrease lemma: if `a` itself satisfies `p` but not `q`
and `q` is pointwise stronger than `p`, filtering by `q` gives a strictly
shorter list. -/
theorem length_filter_lt_of_mem {α : Type} (p q : α → Bool) (l : List α) (a : α)
    (ha : a ∈ l) (hpa : p a = true) (hqa : q a = false)
    (himp : ∀ x, q x = true → p x = true) :
    (l.filter q).length < (l.filter p).length := by
  induction l with
  | nil => cases ha
  | cons b l ih =>
    rcases List.mem_cons.mp ha with rfl | hbl
    · have : q a = false := hqa
      simp [List.filter_cons, hpa, this]
      calc (l.filter q).length ≤ (l.filter p).length :=
            length_filter_le_of_imp p q l himp
        _ < (l.filter p).length + 1 := Nat.lt_succ_self _
    · have hlt := ih hbl
      by_cases hq : q b = true
      · have hp := himp b hq
        simp [List.filter_cons, hq, hp]
        omega
      · simp only [Bool.not_eq_true] at hq
        by_cases hp : p b = true
        · simp [List.filter_cons, hq, hp]
          omega
        · simp only [Bool.not_eq_true] at hp
          simp [List.filter_cons, hq, hp]
          omega

/-- Each recursive call of exact-mode `response_time` goes to a task of
strictly higher priority, so the list of still-higher-priority tasks
strictly shrinks. -/
theorem filter_higher_strict_dec (tasks : List Task) (t h : Task)
    (hh : h ∈ tasks.filter (fun x => x.prio > t.prio)) :
    (tasks.filter (fun x => x.prio > h.prio)).length <
      (tasks.filter (fun x => x.prio > t.prio)).length := by
  have hmem := (List.mem_filter.mp hh).1
  have hprio : t.prio < h.prio := by
    have := (List.mem_filter.mp hh).2
    simpa using this
  apply length_filter_lt_of_mem (fun x => x.prio > t.prio) (fun x => x.prio > h.prio)
    tasks h hmem
  · simpa using hprio
  · simp
  · intro x hx
    simp only [decide_eq_true_eq] at hx ⊢
    omega

/-- `Task::response_time`: approximate mode returns `Ok(B + C + I)`;
exact mode starts from `B + C`, adds the recursively computed exact response
time of every strictly-higher-priority task (propagating `Err` via `?`),
and then fails with `"Deadline missed"` when the total exceeds the deadline. -/
def Task.response_time (t : Task) (tasks : List Task) (mode : PreemptionMode) :
    Except String Nat :=
  match mode with
  | .Approximate =>
    Except.ok (t.blocking_time tasks + t.wcet + t.interference tasks)
  | .Exact =>
    match (tasks.filter (fun h => h.prio > t.prio)).attach.foldlM
        (fun acc x => do
          let interference ← x.1.response_time tasks .Exact
          pure (acc + interference))
        (t.blocking_time tasks + t.wcet) with
    | .error e => .error e
    | .ok total_response_time =>
      if total_response_time > t.deadline then .error "Deadline missed"
      else .ok total_response_time
termination_by (tasks.filter (fun h => h.prio > t.prio)).length
decreasing_by
  exact filter_higher_strict_dec tasks t x.1 x.2

/-- `total_load_factor`: `try_fold` of `wcet / inter_arrival` over the task
set, failing on the first task whose `inter_arrival` is zero before its
division is performed; `f32` modelled as `ℚ`. -/
def total_load_factor (tasks : List Task) : Except String ℚ :=
  tasks.foldlM (fun acc task =>
    if task.inter_arrival = 0 then
      Except.error ("Error: Task \x27" ++ task.id ++ "\x27 has an inter_arrival time of zero.")
    else
      Except.ok (acc + (task.wcet : ℚ) / (task.inter_arrival : ℚ))) 0

/-! ### The example task set of `src/main.rs` (`srp_analysis_example_setup`) -/

/-- Task T1 of the example set: lowest priority, no resource usage. -/
def exT1 : Task :=
  { id := "T1", prio := 1, deadline := 100, inter_arrival := 100,
    trace := Trace.mk "T1" 0 10 [] }

/-- Task T2 of the example set: two `R1` critical sections nesting `R2`
and `R3`. -/
def exT2 : Task :=
  { id := "T2", prio := 2, deadline := 200, inter_arrival := 200,
    trace := Trace.mk "T2" 0 30
      [Trace.mk "R1" 10 20 [Trace.mk "R2" 12 16 []],
       Trace.mk "R1" 22 28 [Trace.mk "R3" 23 30 []]] }

/-- Task T3 of the example set: accesses `R2` and `R3`. -/
def exT3 : Task :=
  { id := "T3", prio := 3, deadline := 50, inter_arrival := 50,
    trace := Trace.mk "T3" 0 30
      [Trace.mk "R2" 10 20 [], Trace.mk "R3" 22 30 []] }

/-- The example task set `vec![t1, t2, t3]`. -/
def exTasks : List Task := [exT1, exT2, exT3]

/-! ### Resource traversal (claim C5) -/

/-- One unfolding of `Trace.resources` without the `attach` bookkeeping:
the direct children, then the concatenated recursive traversals of the
children, in declaration order. -/
theorem Trace.resources_eq (t : Trace) :
    t.resources = t.inner ++ t.inner.flatMap Trace.resources := by
  rw [Trace.resources]
  congr 1
  rw [← List.attach_map_subtype_val t.inner, List.flatMap_map]
  simp [List.attach_map_subtype_val]

/-- `Nested r t`: trace `r` occurs strictly inside trace `t`, at any depth. -/
inductive Nested : Trace → Trace → Prop where
  | child {r t : Trace} : r ∈ t.inner → Nested r t
  | deeper {r c t : Trace} : c ∈ t.inner → Nested r c → Nested r t

/-- A strictly nested trace is structurally smaller. -/
theorem Nested.sizeOf_lt {r t : Trace} (h : Nested r t) : sizeOf r < sizeOf t := by
  induction h with
  | child hr => exact sizeOf_lt_of_mem_inner hr
  | deeper hc _ ih => exact lt_trans ih (sizeOf_lt_of_mem_inner hc)

/-- A member of the traversal is strictly nested. -/
theorem nested_of_mem_resources (t : Trace) : ∀ r, r ∈ t.resources → Nested r t := by
  intro r hr
  rw [Trace.resources_eq, List.mem_append, List.mem_flatMap] at hr
  rcases hr with hr | ⟨c, hc, hrc⟩
  · exact Nested.child hr
  · exact Nested.deeper hc (nested_of_mem_resources c r hrc)
termination_by sizeOf t
decreasing_by
  exact sizeOf_lt_of_mem_inner hc

/-- Every strictly nested trace occurs in the traversal. -/
theorem mem_resources_of_nested : ∀ {r t : Trace}, Nested r t → r ∈ t.resources := by
  intro r t h
  induction h with
  | child hr =>
    rw [Trace.resources_eq]
    exact List.mem_append.mpr (Or.inl hr)
  | deeper hc _ ih =>
    rw [Trace.resources_eq]
    exact List.mem_append.mpr (Or.inr (List.mem_flatMap.mpr ⟨_, hc, ih⟩))

/-- Membership in `Trace.resources` is exactly strict nesting at any depth. -/
theorem mem_resources_iff (t r : Trace) : r ∈ t.resources ↔ Nested r t :=
  ⟨nested_of_mem_resources t r, mem_resources_of_nested⟩

/-! ### Claim C1: the `wcet` subtraction -/

/-- C1 counterexample: a trace whose root interval has `end < start`
(here `start = 1`, `end = 0`) does not make `wcet` fail with an
`InvalidTrace` error — no error channel exists in `wcet` at all — instead
the unsigned subtraction wraps to the huge value `2^32 - 1`. -/
theorem claim_C1_counterexample :
    (Trace.mk "T" 1 0 []).stop < (Trace.mk "T" 1 0 []).start
    ∧ (Trace.mk "T" 1 0 []).wcet = 4294967295 := by
  decide

/-- C1 amended: `wcet` is a total function with no error result: for
`u32`-ranged intervals it returns `end - start` when `end >= start`, and
wraps to `end + 2^32 - start` when `end < start` (release-mode semantics;
a debug build would panic, and in neither case is an `InvalidTrace` error
produced).  `Task::wcet` computes the same subtraction on the root trace. -/
theorem claim_C1_amended (t : Trace) (hs : t.start < U32) (he : t.stop < U32) :
    (t.start ≤ t.stop → t.wcet = t.stop - t.start)
    ∧ (t.stop < t.start → t.wcet = t.stop + U32 - t.start)
    ∧ (∀ task : Task, task.wcet = task.trace.wcet) := by
  simp only [Trace.wcet, U32] at hs he ⊢
  refine ⟨fun h => ?_, fun h => ?_, fun task => rfl⟩ <;> omega

/-- C1 witness: the amended statement evaluated on a well-formed interval
`[3, 10)` (wcet `7`) . -/
theorem claim_C1_witness : (Trace.mk "W" 3 10 []).wcet = 7 :=
  (claim_C1_amended (Trace.mk "W" 3 10 []) (by decide) (by decide)).1 (by decide)

/-! ### Claim C5: the resource traversal contract -/

/-- C5: `resources` emits, in order, the direct children (declaration
order) and then the recursive traversal of each direct child; it contains
exactly the strictly nested traces and never the node itself;
`Task::resources` delegates to the root trace; a childless trace yields
the empty sequence. -/
theorem claim_C5_resources_contract :
    (∀ t : Trace, t.resources = t.inner ++ t.inner.flatMap Trace.resources)
    ∧ (∀ t r : Trace, r ∈ t.resources ↔ Nested r t)
    ∧ (∀ t : Trace, t ∉ t.resources)
    ∧ (∀ task : Task, task.resources = task.trace.resources)
    ∧ (∀ i : String, ∀ s e : Nat, (Trace.mk i s e []).resources = []) := by
  refine ⟨Trace.resources_eq, mem_resources_iff, fun t ht => ?_, fun task => rfl,
    fun i s e => ?_⟩
  · exact absurd (Nested.sizeOf_lt (nested_of_mem_resources t t ht)) (lt_irrefl _)
  · rw [Trace.resources_eq]
    rfl

/-- C5 witness: the contract applied to the example task T2 — the
traversal is `[R1(first), R1(second), R2, R3]`: both depth-1 nodes before
any depth-2 node, each child followed by its descendants in declaration
order. -/
theorem claim_C5_witness :
    exT2.trace.resources =
      [Trace.mk "R1" 10 20 [Trace.mk "R2" 12 16 []],
       Trace.mk "R1" 22 28 [Trace.mk "R3" 23 30 []],
       Trace.mk "R2" 12 16 [], Trace.mk "R3" 23 30 []] := by
  have h := claim_C5_resources_contract.1
  simp only [exT2, h, Trace.inner, List.flatMap_cons, List.flatMap_nil]
  rfl

/-! ### Claims C3 and C4: blocking time and ceiling priority as maxima -/

/-- A `filterMap` whose function is an `if _ then some _ else none` is a
`filter` followed by a `map`. -/
theorem filterMap_ite_eq_map_filter {α β : Type} (p : α → Prop) [DecidablePred p]
    (f : α → β) (l : List α) :
    l.filterMap (fun a => if p a then some (f a) else none)
      = (l.filter (fun a => decide (p a))).map f := by
  induction l with
  | nil => rfl
  | cons a l ih =>
    by_cases h : p a <;> simp [List.filterMap_cons, List.filter_cons, h, ih]

/-- `Nat.max` picks one of its arguments. -/
theorem nat_max_choice (a b : Nat) : a ⊔ b = a ∨ a ⊔ b = b := max_choice a b

/-- `Nat.max` is the least upper bound of its arguments. -/
theorem nat_max_le_iff (a b c : Nat) : b ⊔ c ≤ a ↔ b ≤ a ∧ c ≤ a := max_le_iff

/-- `getD` of a `max?` is the greatest element of a nonempty list and the
default on the empty list. -/
theorem max_getD_char (cs : List Nat) (d : Nat) :
    (cs = [] → (cs.max?).getD d = d)
    ∧ (cs ≠ [] → (cs.max?).getD d ∈ cs)
    ∧ (∀ c ∈ cs, c ≤ (cs.max?).getD d) := by
  refine ⟨fun hnil => ?_, fun hne => ?_, fun c hc => ?_⟩
  · rw [hnil]; rfl
  · cases hmx : cs.max? with
    | none => exact absurd (List.max?_eq_none_iff.mp hmx) hne
    | some m => simpa using List.max?_mem nat_max_choice hmx
  · cases hmx : cs.max? with
    | none =>
      rw [List.max?_eq_none_iff.mp hmx] at hc
      cases hc
    | some m =>
      have := (List.max?_le_iff nat_max_le_iff hmx).mp (le_refl m)
      simpa using this c hc

/-- C3: `blocking_time(t, tasks)` is the maximum of `wcet(r)` over all
resources `r` of tasks of strictly lower priority whose ceiling priority
is at least `t.prio` — a single maximum, `0` when the candidate set is
empty, and an upper bound of (and attained by) the candidates otherwise. -/
theorem claim_C3_blocking_time_max (t : Task) (tasks : List Task) :
    let cs := (tasks.filter (fun l => l.prio < t.prio)).flatMap (fun l =>
        (l.resources.filter (fun r => decide (r.ceiling_priority tasks ≥ t.prio))).map
          Trace.wcet)
    (cs = [] → t.blocking_time tasks = 0)
    ∧ (cs ≠ [] → t.blocking_time tasks ∈ cs)
    ∧ (∀ c ∈ cs, c ≤ t.blocking_time tasks) := by
  intro cs
  have hfun : (fun (l : Task) => l.resources.filterMap (fun resource =>
        if resource.ceiling_priority tasks ≥ t.prio then some resource.wcet else none))
      = (fun (l : Task) =>
        (l.resources.filter (fun r => decide (r.ceiling_priority tasks ≥ t.prio))).map
          Trace.wcet) := by
    funext l
    exact filterMap_ite_eq_map_filter
      (fun resource => resource.ceiling_priority tasks ≥ t.prio) Trace.wcet l.resources
  have hbt : t.blocking_time tasks = (cs.max?).getD 0 := by
    simp only [Task.blocking_time, hfun]
  rw [hbt]
  exact max_getD_char cs 0

/-- C4: `ceiling_priority(r, tasks)` is the maximum priority of the tasks
whose resource traversal contains a trace with `r`'s id, and defaults to
`1` (not `0`) when no task accesses the resource. -/
theorem claim_C4_ceiling_priority_max (r : Trace) (tasks : List Task) :
    let accessors := tasks.filter (fun task =>
      decide (∃ res ∈ task.resources, res.id = r.id))
    (accessors = [] → r.ceiling_priority tasks = 1)
    ∧ (accessors ≠ [] → ∃ task ∈ accessors, task.prio = r.ceiling_priority tasks)
    ∧ (∀ task ∈ accessors, task.prio ≤ r.ceiling_priority tasks) := by
  intro accessors
  have hfc : tasks.filter (fun task => task.resources.any (fun res => res.id == r.id))
      = accessors := by
    apply List.filter_congr
    intro task _
    by_cases h : ∃ res ∈ task.resources, res.id = r.id
    · rw [decide_eq_true h, List.any_eq_true]
      obtain ⟨res, hres, hid⟩ := h
      exact ⟨res, hres, by simpa using hid⟩
    · rw [decide_eq_false h, Bool.eq_false_iff]
      intro hc
      rw [List.any_eq_true] at hc
      obtain ⟨res, hres, hid⟩ := hc
      exact h ⟨res, hres, by simpa using hid⟩
  have hcp : r.ceiling_priority tasks = ((accessors.map Task.prio).max?).getD 1 := by
    simp only [Trace.ceiling_priority, hfc]
  have hchar := max_getD_char (accessors.map Task.prio) 1
  refine ⟨fun hnil => ?_, fun hne => ?_, fun task htask => ?_⟩
  · rw [hcp, List.map_eq_nil_iff.mpr hnil]
    rfl
  · have hne' : accessors.map Task.prio ≠ [] := by
      simpa [List.map_eq_nil_iff] using hne
    have hmem := hchar.2.1 hne'
    rw [hcp]
    rcases List.mem_map.mp hmem with ⟨task, htask, hprio⟩
    exact ⟨task, htask, hprio⟩
  · rw [hcp]
    exact hchar.2.2 task.prio (List.mem_map_of_mem Task.prio htask)

/-! ### Evaluation of the example task set -/

/-- T1's trace has no children, so its traversal is empty. -/
theorem exT1_res : exT1.resources = [] := by
  simp only [Task.resources, exT1, Trace.resources_eq, Trace.inner, List.flatMap_nil,
    List.append_nil]

/-- T2's traversal: both `R1` children first, then their descendants. -/
theorem exT2_res : exT2.resources =
    [Trace.mk "R1" 10 20 [Trace.mk "R2" 12 16 []],
     Trace.mk "R1" 22 28 [Trace.mk "R3" 23 30 []],
     Trace.mk "R2" 12 16 [], Trace.mk "R3" 23 30 []] := by
  simp only [Task.resources, exT2, Trace.resources_eq, Trace.inner, List.flatMap_cons,
    List.flatMap_nil]
  rfl

/-- T3's traversal: its two children. -/
theorem exT3_res : exT3.resources = [Trace.mk "R2" 10 20 [], Trace.mk "R3" 22 30 []] := by
  simp only [Task.resources, exT3, Trace.resources_eq, Trace.inner, List.flatMap_cons,
    List.flatMap_nil]
  rfl

/-- Resource `R1` is accessed only by T2, so its ceiling is 2. -/
theorem ceil_R1a : (Trace.mk "R1" 10 20 [Trace.mk "R2" 12 16 []]).ceiling_priority exTasks
    = 2 := by
  simp only [Trace.ceiling_priority, exTasks, List.filter_cons, List.filter_nil,
    exT1_res, exT2_res, exT3_res, Trace.id, List.any_cons, List.any_nil]
  rfl

/-- The second `R1` occurrence has the same id, hence the same ceiling 2. -/
theorem ceil_R1b : (Trace.mk "R1" 22 28 [Trace.mk "R3" 23 30 []]).ceiling_priority exTasks
    = 2 := by
  simp only [Trace.ceiling_priority, exTasks, List.filter_cons, List.filter_nil,
    exT1_res, exT2_res, exT3_res, Trace.id, List.any_cons, List.any_nil]
  rfl

/-- Resource `R2` is accessed by T2 (nested) and T3, ceiling 3. -/
theorem ceil_R2 : (Trace.mk "R2" 12 16 []).ceiling_priority exTasks = 3 := by
  simp only [Trace.ceiling_priority, exTasks, List.filter_cons, List.filter_nil,
    exT1_res, exT2_res, exT3_res, Trace.id, List.any_cons, List.any_nil]
  rfl

/-- Resource `R3` is accessed by T2 (nested) and T3, ceiling 3. -/
theorem ceil_R3 : (Trace.mk "R3" 23 30 []).ceiling_priority exTasks = 3 := by
  simp only [Trace.ceiling_priority, exTasks, List.filter_cons, List.filter_nil,
    exT1_res, exT2_res, exT3_res, Trace.id, List.any_cons, List.any_nil]
  rfl

/-- C3 witness: for the example task T3, the candidate set is
`{wcet R2 = 4, wcet R3 = 7}` (T2's resources with ceiling ≥ 3), and the
claim theorem pins `blocking_time` to its maximum, 7. -/
theorem claim_C3_witness : exT3.blocking_time exTasks = 7 := by
  have h := claim_C3_blocking_time_max exT3 exTasks
  have hcs : (exTasks.filter (fun l => l.prio < exT3.prio)).flatMap (fun l =>
      (l.resources.filter (fun r => decide (r.ceiling_priority exTasks ≥ exT3.prio))).map
        Trace.wcet) = [4, 7] := by
    have hfilt : exTasks.filter (fun l => l.prio < exT3.prio) = [exT1, exT2] := by
      rw [exTasks, List.filter_cons, List.filter_cons, List.filter_cons, List.filter_nil]
      have p1 : decide (exT1.prio < exT3.prio) = true := by decide
      have p2 : decide (exT2.prio < exT3.prio) = true := by decide
      have p3 : decide (exT3.prio < exT3.prio) = false := by decide
      rw [p1, p2, p3]
      rfl
    rw [hfilt, List.flatMap_cons, List.flatMap_cons, List.flatMap_nil, exT1_res, exT2_res]
    rw [List.filter_cons, List.filter_cons, List.filter_cons, List.filter_cons,
      List.filter_nil]
    rw [ceil_R1a, ceil_R1b, ceil_R2, ceil_R3]
    decide
  simp only [hcs] at h
  have hmem := h.2.1 (by simp)
  have hub := h.2.2 7 (by simp)
  simp only [List.mem_cons, List.not_mem_nil, or_false] at hmem
  rcases hmem with h4 | h7 <;> omega

/-- C4 witness: resource id `R9` appears in no task's traversal, so the
ceiling defaults to 1; resource id `R2` is accessed by T2 and T3, so the
ceiling is 3. -/
theorem claim_C4_witness :
    (Trace.mk "R9" 5 6 []).ceiling_priority exTasks = 1
    ∧ (Trace.mk "R2" 12 16 []).ceiling_priority exTasks = 3 := by
  constructor
  · have h := claim_C4_ceiling_priority_max (Trace.mk "R9" 5 6 []) exTasks
    have hacc : exTasks.filter (fun task =>
        decide (∃ res ∈ task.resources, res.id = (Trace.mk "R9" 5 6 []).id)) = [] := by
      rw [List.filter_eq_nil_iff]
      intro task htask
      simp only [exTasks, List.mem_cons, List.not_mem_nil, or_false] at htask
      rcases htask with rfl | rfl | rfl <;>
        simp [exT1_res, exT2_res, exT3_res, Trace.id]
    simp only [hacc] at h
    exact h.1 trivial
  · have h := claim_C4_ceiling_priority_max (Trace.mk "R2" 12 16 []) exTasks
    have hacc : exTasks.filter (fun task =>
        decide (∃ res ∈ task.resources, res.id = (Trace.mk "R2" 12 16 []).id)) =
        [exT2, exT3] := by
      rw [exTasks, List.filter_cons, List.filter_cons, List.filter_cons, List.filter_nil]
      have e1 : decide (∃ res ∈ exT1.resources, res.id = (Trace.mk "R2" 12 16 []).id)
          = false := by simp [exT1_res]
      have e2 : decide (∃ res ∈ exT2.resources, res.id = (Trace.mk "R2" 12 16 []).id)
          = true := by simp [exT2_res, Trace.id]
      have e3 : decide (∃ res ∈ exT3.resources, res.id = (Trace.mk "R2" 12 16 []).id)
          = true := by simp [exT3_res, Trace.id]
      rw [e1, e2, e3]
      rfl
    simp only [hacc] at h
    have hmem := h.2.1 (by simp)
    have hub := h.2.2 exT3 (by simp)
    simp only [List.mem_cons, List.not_mem_nil, or_false] at hmem
    have hp2 : exT2.prio = 2 := rfl
    have hp3 : exT3.prio = 3 := rfl
    rw [hp3] at hub
    rcases hmem with ⟨task, htask | htask, hprio⟩
    · rw [htask, hp2] at hprio
      omega
    · rw [htask, hp3] at hprio
      omega

/-! ### Claim C6: total load factor and the zero inter-arrival guard -/

/-- If no task of the list has zero inter-arrival, the `try_fold` adds all
load factors. -/
theorem tlf_fold_ok (l : List Task) (hok : ∀ x ∈ l, x.inter_arrival ≠ 0) :
    ∀ acc : ℚ, (l.foldlM (fun acc task =>
      if task.inter_arrival = 0 then
        Except.error ("Error: Task \x27" ++ task.id ++ "\x27 has an inter_arrival time of zero.")
      else
        Except.ok (acc + (task.wcet : ℚ) / (task.inter_arrival : ℚ))) acc)
      = Except.ok (acc + (l.map (fun x => (x.wcet : ℚ) / (x.inter_arrival : ℚ))).sum) := by
  induction l with
  | nil =>
    intro acc
    rw [List.foldlM_nil]
    simp only [List.map_nil, List.sum_nil, add_zero]
    rfl
  | cons a l ih =>
    intro acc
    rw [List.foldlM_cons]
    rw [if_neg (hok a (List.mem_cons_self a l))]
    show l.foldlM _ (acc + (a.wcet : ℚ) / (a.inter_arrival : ℚ)) = _
    rw [ih (fun x hx => hok x (List.mem_cons_of_mem a hx))]
    simp [add_assoc]

/-- If some task of the list has zero inter-arrival, the `try_fold` fails
with the error message naming one such task, whatever the accumulator. -/
theorem tlf_fold_err (l : List Task) (hz : ∃ x ∈ l, x.inter_arrival = 0) :
    ∃ y ∈ l, y.inter_arrival = 0 ∧ ∀ acc : ℚ, (l.foldlM (fun acc task =>
      if task.inter_arrival = 0 then
        Except.error ("Error: Task \x27" ++ task.id ++ "\x27 has an inter_arrival time of zero.")
      else
        Except.ok (acc + (task.wcet : ℚ) / (task.inter_arrival : ℚ))) acc)
      = Except.error ("Error: Task \x27" ++ y.id ++ "\x27 has an inter_arrival time of zero.") := by
  induction l with
  | nil =>
    obtain ⟨x, hx, -⟩ := hz
    cases hx
  | cons a l ih =>
    by_cases ha : a.inter_arrival = 0
    · refine ⟨a, List.mem_cons_self a l, ha, fun acc => ?_⟩
      rw [List.foldlM_cons, if_pos ha]
      rfl
    · obtain ⟨x, hx, hx0⟩ := hz
      rcases List.mem_cons.mp hx with rfl | hxl
      · exact absurd hx0 ha
      · obtain ⟨y, hyl, hy0, herr⟩ := ih ⟨x, hxl, hx0⟩
        refine ⟨y, List.mem_cons_of_mem a hyl, hy0, fun acc => ?_⟩
        rw [List.foldlM_cons, if_neg ha]
        show l.foldlM _ (acc + (a.wcet : ℚ) / (a.inter_arrival : ℚ)) = _
        exact herr _

/-- C6: `total_load_factor` fails with the zero-inter-arrival error
(naming an offending task) exactly when some task has `inter_arrival = 0`,
that task's division never being performed; otherwise it returns the sum
of `wcet / inter_arrival` over all tasks. -/
theorem claim_C6_total_load_factor (tasks : List Task) :
    ((∀ x ∈ tasks, x.inter_arrival ≠ 0) →
      total_load_factor tasks
        = Except.ok ((tasks.map (fun x => (x.wcet : ℚ) / (x.inter_arrival : ℚ))).sum))
    ∧ ((∃ x ∈ tasks, x.inter_arrival = 0) →
      ∃ y ∈ tasks, y.inter_arrival = 0 ∧
        total_load_factor tasks
          = Except.error ("Error: Task \x27" ++ y.id ++ "\x27 has an inter_arrival time of zero.")) := by
  constructor
  · intro hok
    rw [total_load_factor, tlf_fold_ok tasks hok 0]
    rw [zero_add]
  · intro hz
    obtain ⟨y, hyl, hy0, herr⟩ := tlf_fold_err tasks hz
    exact ⟨y, hyl, hy0, herr 0⟩

/-- A task with `inter_arrival = 0`, for exercising the zero guard. -/
def exT0 : Task :=
  { id := "T0", prio := 9, deadline := 10, inter_arrival := 0,
    trace := Trace.mk "T0" 0 5 [] }

/-- C6 witness: on the example set the load factor is
`10/100 + 30/200 + 30/50 = 0.85`; adding a task with `inter_arrival = 0`
makes `total_load_factor` fail with the error naming it. -/
theorem claim_C6_witness :
    total_load_factor exTasks = Except.ok (17 / 20)
    ∧ ∃ y ∈ exT0 :: exTasks, y.inter_arrival = 0 ∧
        total_load_factor (exT0 :: exTasks)
          = Except.error ("Error: Task \x27" ++ y.id ++ "\x27 has an inter_arrival time of zero.") := by
  constructor
  · have h := (claim_C6_total_load_factor exTasks).1 (by decide)
    rw [h]
    norm_num [exTasks, exT1, exT2, exT3, Task.wcet, U32, Trace.stop, Trace.start]
  · exact (claim_C6_total_load_factor (exT0 :: exTasks)).2 ⟨exT0, List.mem_cons_self _ _, rfl⟩

/-! ### Claims C8 and C2: the two response-time modes -/

/-- C8: approximate-mode `response_time` always succeeds with
`B(t) + C(t) + I(t)`, computed once; no deadline comparison occurs, so no
`DeadlineMissed` error is possible in this mode even when the value
exceeds `t.deadline`. -/
theorem claim_C8_approximate_total (t : Task) (tasks : List Task) :
    t.response_time tasks .Approximate
      = Except.ok (t.blocking_time tasks + t.wcet + t.interference tasks)
    ∧ (t.response_time tasks .Approximate).isOk = true := by
  have h : t.response_time tasks .Approximate
      = Except.ok (t.blocking_time tasks + t.wcet + t.interference tasks) := by
    rw [Task.response_time]
  exact ⟨h, by rw [h]; rfl⟩

/-- The exact-mode fold over the attached higher-priority list, expressed
through `mapM` and a sum. -/
theorem rt_exact_foldlM (tasks : List Task) (t : Task) :
    ∀ (l : List {x : Task // x ∈ tasks.filter (fun h => h.prio > t.prio)}) (acc : Nat),
    (l.foldlM (fun acc x => do
        let interference ← x.1.response_time tasks .Exact
        pure (acc + interference)) acc)
    = match (l.map Subtype.val).mapM (fun h => h.response_time tasks .Exact) with
      | .error e => .error e
      | .ok is => .ok (acc + is.sum) := by
  intro l
  induction l with
  | nil =>
    intro acc
    rfl
  | cons x l ih =>
    intro acc
    rw [List.foldlM_cons]
    cases hx : x.1.response_time tasks .Exact with
    | error e =>
      show Except.error e >>= _ = _
      rw [List.map_cons, List.mapM_cons, hx]
      rfl
    | ok i =>
      show l.foldlM _ (acc + i) = _
      rw [ih (acc + i), List.map_cons, List.mapM_cons, hx]
      cases hm : (l.map Subtype.val).mapM (fun h => h.response_time tasks .Exact) with
      | error e => rfl
      | ok is =>
        show Except.ok (acc + i + is.sum) = Except.ok (acc + (i :: is).sum)
        rw [List.sum_cons, Nat.add_assoc]

/-- Exact-mode `response_time`, unfolded once: run the exact analysis of
every strictly-higher-priority task left to right, propagating the first
failure unchanged; on success add all of them to `B(t) + C(t)` and fail
with `"Deadline missed"` exactly when the total exceeds the deadline. -/
theorem response_time_exact_unfold (t : Task) (tasks : List Task) :
    t.response_time tasks .Exact
      = match (tasks.filter (fun h => h.prio > t.prio)).mapM
            (fun h => h.response_time tasks .Exact) with
        | .error e => .error e
        | .ok is =>
          if t.blocking_time tasks + t.wcet + is.sum > t.deadline
          then .error "Deadline missed"
          else .ok (t.blocking_time tasks + t.wcet + is.sum) := by
  rw [Task.response_time]
  rw [rt_exact_foldlM tasks t (tasks.filter (fun h => h.prio > t.prio)).attach
    (t.blocking_time tasks + t.wcet)]
  rw [List.attach_map_subtype_val]
  cases hm : (tasks.filter (fun h => h.prio > t.prio)).mapM
      (fun h => h.response_time tasks .Exact) with
  | error e => rfl
  | ok is => rfl

/-- C2: exact-mode `response_time` starts from `B(t) + C(t)`, adds the full
recursively computed exact response time of every strictly-higher-priority
task (any failure of a recursive call propagating upward unchanged), and
returns the `DeadlineMissed` error exactly when the total exceeds
`t.deadline`, the total otherwise. -/
theorem claim_C2_exact_recursion (t : Task) (tasks : List Task) :
    t.response_time tasks .Exact
      = match (tasks.filter (fun h => h.prio > t.prio)).mapM
            (fun h => h.response_time tasks .Exact) with
        | .error e => .error e
        | .ok is =>
          if t.blocking_time tasks + t.wcet + is.sum > t.deadline
          then .error "Deadline missed"
          else .ok (t.blocking_time tasks + t.wcet + is.sum) :=
  response_time_exact_unfold t tasks

/-! ### Claim C7: the interference formula -/

/-- C7: with positive inter-arrival times and well-formed intervals,
`interference` is the sum over strictly-higher-priority tasks `h` of
`wcet(h) * ceil(busy_period / inter_arrival(h))`; `busy_period` is the sum
of `wcet` over same-or-higher-priority tasks; the ceiling rounds the
real-valued quotient up to the nearest integer. -/
theorem claim_C7_interference_formula (t : Task) (tasks : List Task)
    (hA : ∀ h ∈ tasks, 0 < h.inter_arrival)
    (hwf : ∀ h ∈ tasks, h.trace.start ≤ h.trace.stop) :
    t.interference tasks
      = ((tasks.filter (fun h => h.prio > t.prio)).map (fun h =>
          h.wcet * Nat.ceil ((t.busy_period tasks : ℚ) / (h.inter_arrival : ℚ)))).sum
    ∧ t.busy_period tasks = ((tasks.filter (fun x => x.prio ≥ t.prio)).map Task.wcet).sum
    ∧ ∀ h ∈ tasks, t.prio < h.prio →
        ((t.busy_period tasks : ℚ) / (h.inter_arrival : ℚ)
            ≤ (Nat.ceil ((t.busy_period tasks : ℚ) / (h.inter_arrival : ℚ)) : ℚ))
        ∧ ((Nat.ceil ((t.busy_period tasks : ℚ) / (h.inter_arrival : ℚ)) : ℚ)
            < (t.busy_period tasks : ℚ) / (h.inter_arrival : ℚ) + 1) := by
  refine ⟨rfl, rfl, fun h hmem hp => ⟨Nat.le_ceil _, Nat.ceil_lt_add_one ?_⟩⟩
  positivity

/-- C7 witness: for the example task T1, the busy period is
`10 + 30 + 30 = 70` and the interference is
`30 * ceil(70/200) + 30 * ceil(70/50) = 30 * 1 + 30 * 2 = 90`. -/
theorem claim_C7_witness : exT1.interference exTasks = 90 := by
  have h := (claim_C7_interference_formula exT1 exTasks (by decide) (by decide)).1
  rw [h]
  have hbp : exT1.busy_period exTasks = 70 := by decide
  have hfilt : exTasks.filter (fun h => h.prio > exT1.prio) = [exT2, exT3] := by
    rw [exTasks, List.filter_cons, List.filter_cons, List.filter_cons, List.filter_nil]
    have p1 : decide (exT1.prio > exT1.prio) = false := by decide
    have p2 : decide (exT2.prio > exT1.prio) = true := by decide
    have p3 : decide (exT3.prio > exT1.prio) = true := by decide
    rw [p1, p2, p3]
    rfl
  rw [hfilt, List.map_cons, List.map_cons, List.map_nil, hbp]
  have hw2 : exT2.wcet = 30 := by decide
  have hw3 : exT3.wcet = 30 := by decide
  have ha2 : ((exT2.inter_arrival : ℚ)) = 200 := by norm_num [exT2]
  have ha3 : ((exT3.inter_arrival : ℚ)) = 50 := by norm_num [exT3]
  rw [hw2, hw3, ha2, ha3]
  have hc2 : Nat.ceil ((70 : ℚ) / 200) = 1 := by
    rw [Nat.ceil_eq_iff] <;> norm_num
  have hc3 : Nat.ceil ((70 : ℚ) / 50) = 2 := by
    rw [Nat.ceil_eq_iff] <;> norm_num
  rw [show ((70 : Nat) : ℚ) = (70 : ℚ) by norm_num, hc2, hc3]
  rfl

/-! ### Claim C10: no zero-inter-arrival guard outside total_load_factor -/

/-- Approximate-mode `response_time` always returns `Ok(B + C + I)`. -/
theorem response_time_approx_eq (t : Task) (tasks : List Task) :
    t.response_time tasks .Approximate
      = Except.ok (t.blocking_time tasks + t.wcet + t.interference tasks) := by
  rw [Task.response_time]

/-- C10: the zero-inter-arrival check exists only in `total_load_factor`.
Even when a strictly-higher-priority task `h` has `inter_arrival = 0`,
`interference` is a total function that still evaluates its per-task
division with no guard, and approximate-mode `response_time` succeeds with
no `ZeroInterArrival` error — while `total_load_factor` on the same task
set does fail. -/
theorem claim_C10_no_zero_guard (t h : Task) (tasks : List Task)
    (hmem : h ∈ tasks) (hp : t.prio < h.prio) (h0 : h.inter_arrival = 0) :
    t.interference tasks
      = ((tasks.filter (fun x => x.prio > t.prio)).map (fun x =>
          x.wcet * Nat.ceil ((t.busy_period tasks : ℚ) / (x.inter_arrival : ℚ)))).sum
    ∧ (t.response_time tasks .Approximate).isOk = true
    ∧ (∃ e, total_load_factor tasks = Except.error e) := by
  refine ⟨rfl, ?_, ?_⟩
  · rw [response_time_approx_eq]
    rfl
  · obtain ⟨y, -, -, herr⟩ := tlf_fold_err tasks ⟨h, hmem, h0⟩
    exact ⟨_, herr 0⟩

/-- C10 witness: adding the zero-inter-arrival task T0 (priority 9) to
the example set leaves approximate-mode analysis of T1 succeeding while
`total_load_factor` fails. -/
theorem claim_C10_witness :
    exT1.interference (exTasks ++ [exT0])
      = (((exTasks ++ [exT0]).filter (fun x => x.prio > exT1.prio)).map (fun x =>
          x.wcet * Nat.ceil ((exT1.busy_period (exTasks ++ [exT0]) : ℚ)
            / (x.inter_arrival : ℚ)))).sum
    ∧ (exT1.response_time (exTasks ++ [exT0]) .Approximate).isOk = true
    ∧ (∃ e, total_load_factor (exTasks ++ [exT0]) = Except.error e) :=
  claim_C10_no_zero_guard exT1 exT0 (exTasks ++ [exT0])
    (by rw [exTasks]; simp) (by decide) rfl

/-! ### Claim C9: termination and depth bound of exact-mode recursion

The recursive `response_time` above is already a total Lean function (its
well-founded recursion on the number of strictly-higher-priority tasks is
the termination argument).  To express the claimed *depth bound*, a
fuel-indexed variant models the Rust call stack: `none` means the
available depth was exhausted.  The claim theorem shows that a depth equal
to the number of distinct priority levels always suffices. -/

/-- The `?`-propagating accumulation of exact-mode recursive calls, with
each call allowed to run out of depth (`none`). -/
def exceptFold (f : Task → Option (Except String Nat)) :
    List Task → Nat → Option (Except String Nat)
  | [], acc => some (Except.ok acc)
  | h :: rest, acc =>
    match f h with
    | none => none
    | some (Except.error e) => some (Except.error e)
    | some (Except.ok i) => exceptFold f rest (acc + i)

/-- Depth-indexed `Task::response_time`: identical to `response_time` but
each nested call consumes one unit of stack depth; `none` models a call
that would exceed the depth. -/
def Task.response_time_fuel (t : Task) (tasks : List Task) (mode : PreemptionMode) :
    Nat → Option (Except String Nat)
  | 0 => none
  | fuel + 1 =>
    match mode with
    | .Approximate =>
      some (Except.ok (t.blocking_time tasks + t.wcet + t.interference tasks))
    | .Exact =>
      match exceptFold (fun h => h.response_time_fuel tasks .Exact fuel)
          (tasks.filter (fun h => h.prio > t.prio))
          (t.blocking_time tasks + t.wcet) with
      | none => none
      | some (Except.error e) => some (Except.error e)
      | some (Except.ok total) =>
        some (if total > t.deadline then Except.error "Deadline missed"
              else Except.ok total)

/-- The number of distinct priorities in the task set strictly above a
task's. -/
def distinctHigherPrios (tasks : List Task) (t : Task) : Nat :=
  (((tasks.map Task.prio).filter (fun p => p > t.prio)).dedup).length

/-- The number of distinct priority levels in the task set. -/
def distinctPrios (tasks : List Task) : Nat :=
  ((tasks.map Task.prio).dedup).length

/-- Each recursive call strictly shrinks the set of distinct strictly
higher priorities. -/
theorem distinctHigherPrios_strict_dec (tasks : List Task) (t h : Task)
    (hmem : h ∈ tasks) (hp : t.prio < h.prio) :
    distinctHigherPrios tasks h < distinctHigherPrios tasks t := by
  rw [distinctHigherPrios, distinctHigherPrios, ← List.card_toFinset, ← List.card_toFinset]
  apply Finset.card_lt_card
  rw [Finset.ssubset_iff_of_subset]
  · refine ⟨h.prio, ?_, ?_⟩
    · rw [List.mem_toFinset, List.mem_filter]
      exact ⟨List.mem_map_of_mem Task.prio hmem, by simpa using hp⟩
    · rw [List.mem_toFinset, List.mem_filter]
      rintro ⟨-, hlt⟩
      simp at hlt
  · intro p hpmem
    rw [List.mem_toFinset, List.mem_filter] at hpmem ⊢
    obtain ⟨hpm, hph⟩ := hpmem
    refine ⟨hpm, ?_⟩
    simp only [decide_eq_true_eq] at hph ⊢
    omega

/-- For a task of the set, the strictly-higher distinct priorities are
fewer than all distinct priority levels. -/
theorem distinctHigherPrios_lt_distinctPrios (tasks : List Task) (t : Task)
    (hmem : t ∈ tasks) :
    distinctHigherPrios tasks t < distinctPrios tasks := by
  rw [distinctHigherPrios, distinctPrios, ← List.card_toFinset, ← List.card_toFinset]
  apply Finset.card_lt_card
  rw [Finset.ssubset_iff_of_subset]
  · refine ⟨t.prio, ?_, ?_⟩
    · rw [List.mem_toFinset]
      exact List.mem_map_of_mem Task.prio hmem
    · rw [List.mem_toFinset, List.mem_filter]
      rintro ⟨-, hlt⟩
      simp at hlt
  · intro p hpmem
    rw [List.mem_toFinset, List.mem_filter] at hpmem
    rw [List.mem_toFinset]
    exact hpmem.1

/-- When every element's evaluation is already determined, `exceptFold`
is the `mapM`-and-sum of those evaluations. -/
theorem exceptFold_eq_mapM (f : Task → Option (Except String Nat))
    (g : Task → Except String Nat) :
    ∀ (l : List Task), (∀ h ∈ l, f h = some (g h)) → ∀ acc : Nat,
    exceptFold f l acc
      = some (match l.mapM g with
              | .error e => .error e
              | .ok is => .ok (acc + is.sum)) := by
  intro l
  induction l with
  | nil =>
    intro _ acc
    rfl
  | cons h rest ih =>
    intro hall acc
    have hfh := hall h (List.mem_cons_self h rest)
    show (match f h with
      | none => none
      | some (Except.error e) => some (Except.error e)
      | some (Except.ok i) => exceptFold f rest (acc + i)) = _
    rw [hfh]
    cases hg : g h with
    | error e =>
      rw [List.mapM_cons, hg]
      rfl
    | ok i =>
      show exceptFold f rest (acc + i) = _
      rw [ih (fun x hx => hall x (List.mem_cons_of_mem h hx)) (acc + i)]
      rw [List.mapM_cons, hg]
      cases hm : rest.mapM g with
      | error e => rfl
      | ok is =>
        show some (Except.ok (acc + i + is.sum)) = some (Except.ok (acc + (i :: is).sum))
        rw [List.sum_cons, Nat.add_assoc]

/-- A stack depth exceeding the number of distinct strictly-higher
priority levels suffices for the fuel-indexed recursion to complete and
agree with the total function. -/
theorem response_time_fuel_spec :
    ∀ (fuel : Nat) (tasks : List Task) (t : Task),
      distinctHigherPrios tasks t < fuel →
      t.response_time_fuel tasks .Exact fuel = some (t.response_time tasks .Exact) := by
  intro fuel
  induction fuel with
  | zero =>
    intro tasks t h
    exact absurd h (Nat.not_lt_zero _)
  | succ n ih =>
    intro tasks t h
    have hall : ∀ x ∈ tasks.filter (fun h => h.prio > t.prio),
        x.response_time_fuel tasks .Exact n = some (x.response_time tasks .Exact) := by
      intro x hx
      have hxm := (List.mem_filter.mp hx).1
      have hxp : t.prio < x.prio := by
        have := (List.mem_filter.mp hx).2
        simpa using this
      have hdec := distinctHigherPrios_strict_dec tasks t x hxm hxp
      exact ih tasks x (by omega)
    show (match exceptFold (fun h => h.response_time_fuel tasks .Exact n)
        (tasks.filter (fun h => h.prio > t.prio))
        (t.blocking_time tasks + t.wcet) with
      | none => none
      | some (Except.error e) => some (Except.error e)
      | some (Except.ok total) =>
        some (if total > t.deadline then Except.error "Deadline missed"
              else Except.ok total)) = _
    rw [exceptFold_eq_mapM _ (fun x => x.response_time tasks .Exact) _ hall]
    rw [response_time_exact_unfold t tasks]
    cases hm : (tasks.filter (fun h => h.prio > t.prio)).mapM
        (fun x => x.response_time tasks .Exact) with
    | error e => rfl
    | ok is => rfl

/-- C9: exact-mode `response_time` terminates on every finite task set:
each recursive call goes to a strictly-higher-priority task, and a call
stack whose depth is (at least) the number of distinct priority levels of
the set always completes, agreeing with the total well-founded
`response_time`. -/
theorem claim_C9_exact_mode_terminates (tasks : List Task) (t : Task) (fuel : Nat)
    (hmem : t ∈ tasks) (hfuel : distinctPrios tasks ≤ fuel) :
    t.response_time_fuel tasks .Exact fuel = some (t.response_time tasks .Exact) := by
  apply response_time_fuel_spec
  have := distinctHigherPrios_lt_distinctPrios tasks t hmem
  omega

/-- C9 witness: the example set has three distinct priority levels, and
depth 3 indeed completes the exact analysis of T1 (the task with the most
higher-priority tasks). -/
theorem claim_C9_witness :
    exT1.response_time_fuel exTasks .Exact 3 = some (exT1.response_time exTasks .Exact) :=
  claim_C9_exact_mode_terminates exTasks exT1 3
    (by rw [exTasks]; exact List.mem_cons_self _ _) (by decide)

end SrpAnalysis
